import Mathlib

/-!
Verification of the audio helpers of this repository (`pcmToWav`,
`writeString`, `base64ToArrayBuffer`, the `Int16Array` view and the
MIME-type sample-rate extraction in `handleTtsClick`) against the
natural-language specification.

Bytes are modelled as natural numbers below 256, byte buffers as
`List Nat`.  The JS `DataView` setters convert their numeric argument
modulo 2^16 / 2^32 and write little-endian, which is modelled by
`setUint16`, `setUint32` and `setInt16`.  `pcmToWav` writes its header
fields at offsets 0,4,8,12,16,20,22,24,28,32,34,36,40 — a contiguous,
non-overlapping cover of the 44 header bytes — followed by the sample
words from offset 44 on, so the buffer it fills is faithfully modelled
as the concatenation of those writes in source order.
-/

/-- Little-endian serialisation of a natural number into `k` bytes,
least significant byte first (the layout `DataView` uses with
`littleEndian = true`). -/
def bytesOfNatLE : Nat → Nat → List Nat
  | 0, _ => []
  | k+1, v => v % 256 :: bytesOfNatLE k (v / 256)

/-- `DataView.setUint16(_, v, true)`: the value is reduced modulo 2^16 and
written as two little-endian bytes. -/
def setUint16 (v : Int) : List Nat := bytesOfNatLE 2 (v % 65536).toNat

/-- `DataView.setUint32(_, v, true)`: the value is reduced modulo 2^32 and
written as four little-endian bytes. -/
def setUint32 (v : Int) : List Nat := bytesOfNatLE 4 (v % 4294967296).toNat

/-- `DataView.setInt16(_, v, true)`: on integer input the stored raw bytes
are the value reduced modulo 2^16 (two's complement), little-endian —
the same bytes `setUint16` stores. -/
def setInt16 (v : Int) : List Nat := bytesOfNatLE 2 (v % 65536).toNat

/-- The `writeString` helper of the source: one byte per character,
`charCodeAt` reduced modulo 2^8 by the `Uint8` store. -/
def writeString (s : String) : List Nat := s.toList.map (fun c => c.toNat % 256)

/-- The `pcmToWav` encoder of the source, as the byte buffer it fills:
the 44-byte RIFF/WAVE header followed by each sample written with
`setInt16` in input order. -/
def pcmToWav (pcmData : List Int) (sampleRate : Int) : List Nat :=
  let numChannels : Int := 1
  let bitsPerSample : Int := 16
  let byteRate : Int := sampleRate * numChannels * (bitsPerSample / 8)
  let blockAlign : Int := numChannels * (bitsPerSample / 8)
  writeString "RIFF"
    ++ setUint32 (36 + (pcmData.length : Int) * 2)
    ++ writeString "WAVE"
    ++ writeString "fmt "
    ++ setUint32 16
    ++ setUint16 1
    ++ setUint16 numChannels
    ++ setUint32 sampleRate
    ++ setUint32 byteRate
    ++ setUint16 blockAlign
    ++ setUint16 bitsPerSample
    ++ writeString "data"
    ++ setUint32 ((pcmData.length : Int) * 2)
    ++ pcmData.flatMap setInt16

/-- Value of a byte list read as an unsigned little-endian integer. -/
def leVal : List Nat → Nat
  | [] => 0
  | b :: rest => b + 256 * leVal rest

/-- The `n` bytes of a buffer starting at offset `off`. -/
def readChunk (bs : List Nat) (off n : Nat) : List Nat := (bs.drop off).take n

/-- Unsigned 16-bit little-endian read at an offset. -/
def readU16at (bs : List Nat) (off : Nat) : Nat := leVal (readChunk bs off 2)

/-- Unsigned 32-bit little-endian read at an offset. -/
def readU32at (bs : List Nat) (off : Nat) : Nat := leVal (readChunk bs off 4)

/-- Signed 16-bit interpretation of two little-endian bytes
(two's complement). -/
def i16OfBytes (a b : Nat) : Int :=
  if a + 256 * b < 32768 then ((a + 256 * b : Nat) : Int)
  else ((a + 256 * b : Nat) : Int) - 65536

/-- Signed 16-bit little-endian read at an offset. -/
def readI16at (bs : List Nat) (off : Nat) : Int :=
  match readChunk bs off 2 with
  | [a, b] => i16OfBytes a b
  | _ => 0

/-- Consecutive byte pairs of a buffer decoded as signed 16-bit
little-endian integers. -/
def decodePairs : List Nat → List Int
  | a :: b :: rest => i16OfBytes a b :: decodePairs rest
  | _ => []

/-- Modelled from the spec: the companion decoding operation the spec
recommends for round-trip testing (the source only encodes) — sample
extraction: every byte after the 44-byte header, decoded as consecutive
signed 16-bit little-endian words. -/
def wavSamples (bs : List Nat) : List Int := decodePairs (bs.drop 44)

/-- Modelled from the spec: the companion decoding operation, header
parse — the sample rate is the unsigned 32-bit little-endian field at
bytes 24–27. -/
def wavRate (bs : List Nat) : Nat := readU32at bs 24

/-- ASCII bytes of a marker string, for stating the header-layout claims. -/
def asciiBytes (t : String) : List Nat := t.toList.map Char.toNat

/-- Decidable check that every sample fits the signed 16-bit range. -/
def allInt16 (s : List Int) : Bool := s.all (fun v => decide (-32768 ≤ v ∧ v ≤ 32767))

/-- The `base64ToArrayBuffer` helper of the source, applied to the binary
string `atob` returns: one `Uint8` byte per character, `charCodeAt`
reduced modulo 2^8. -/
def base64ToArrayBuffer (binaryString : List Char) : List Nat :=
  binaryString.map (fun c => c.toNat % 256)

/-- `new Int16Array(buffer)` as used in `handleTtsClick`: constructing a
16-bit view of a buffer whose byte length is odd throws a `RangeError`
(modelled as `none`); otherwise it yields the byte pairs as
(little-endian) signed 16-bit integers. -/
def toInt16Array (bytes : List Nat) : Option (List Int) :=
  if bytes.length % 2 = 0 then some (decodePairs bytes) else none

/-- Does the regex `/rate=(\d+)/` match at the head of this character
list: the literal `rate=` followed by at least one digit. -/
def rateMatchHere : List Char → Bool
  | 'r' :: 'a' :: 't' :: 'e' :: '=' :: c :: _ => c.isDigit
  | _ => false

/-- Leftmost match of `/rate=(\d+)/`: scan for the first position where
`rate=` is followed by a digit and capture the maximal digit run, as the
JS regex engine does. -/
def findRate : List Char → Option (List Char)
  | [] => none
  | c :: rest =>
      if rateMatchHere (c :: rest) then some ((rest.drop 4).takeWhile Char.isDigit)
      else findRate rest

/-- `parseInt(digits, 10)` on a non-empty digit string: its decimal value. -/
def digitsToNat (ds : List Char) : Nat := ds.foldl (fun a c => 10 * a + (c.toNat - 48)) 0

/-- The sample-rate extraction of `handleTtsClick`:
`mimeType.match(/rate=(\d+)/)` parsed with `parseInt(_, 10)`, defaulting
to 24000 when the pattern does not match. -/
def parseSampleRate (mime : List Char) : Nat :=
  match findRate mime with
  | some ds => digitsToNat ds
  | none => 24000

/-- Decidable check that `/rate=(\d+)/` matches nowhere in the string. -/
def noRateMatch (m : List Char) : Bool :=
  (List.range m.length).all (fun i => decide (rateMatchHere (m.drop i) = false))

-- ## Shared lemmas

/-- `bytesOfNatLE` always produces exactly `k` bytes. -/
lemma bytesOfNatLE_length (k v : Nat) : (bytesOfNatLE k v).length = k := by
  induction k generalizing v with
  | zero => rfl
  | succ k ih => simp [bytesOfNatLE, ih]

/-- Reading back `k` little-endian bytes of a value below `256 ^ k`
recovers the value. -/
lemma leVal_bytesOfNatLE (k v : Nat) (h : v < 256 ^ k) : leVal (bytesOfNatLE k v) = v := by
  induction k generalizing v with
  | zero =>
      have : v = 0 := by simpa using h
      simp [this, bytesOfNatLE, leVal]
  | succ k ih =>
      have hb : v / 256 < 256 ^ k := by
        rw [pow_succ] at h
        exact (Nat.div_lt_iff_lt_mul (by norm_num)).mpr h
      simp only [bytesOfNatLE, leVal, ih _ hb]
      omega

lemma setInt16_length (v : Int) : (setInt16 v).length = 2 := rfl

lemma setUint16_length (v : Int) : (setUint16 v).length = 2 := rfl

lemma setUint32_length (v : Int) : (setUint32 v).length = 4 := rfl

/-- The sample data region holds two bytes per sample. -/
lemma flatMap_setInt16_length (s : List Int) : (s.flatMap setInt16).length = 2 * s.length := by
  induction s with
  | nil => rfl
  | cons v t ih =>
      rw [List.flatMap_cons, List.length_append, setInt16_length, ih, List.length_cons]
      omega

/-- `pcmToWav` with the four marker strings evaluated to their ASCII bytes. -/
lemma pcmToWav_eq (s : List Int) (r : Int) :
    pcmToWav s r =
      [82, 73, 70, 70] ++ setUint32 (36 + (s.length : Int) * 2)
        ++ [87, 65, 86, 69] ++ [102, 109, 116, 32]
        ++ setUint32 16 ++ setUint16 1 ++ setUint16 1
        ++ setUint32 r ++ setUint32 (r * 1 * (16 / 8))
        ++ setUint16 (1 * (16 / 8)) ++ setUint16 16
        ++ [100, 97, 116, 97] ++ setUint32 ((s.length : Int) * 2)
        ++ s.flatMap setInt16 := rfl

/-- Output length of the encoder: 44 header bytes plus two per sample. -/
lemma wav_length_eq (s : List Int) (r : Int) : (pcmToWav s r).length = 44 + 2 * s.length := by
  rw [pcmToWav_eq]
  simp only [List.length_append, setUint32_length, setUint16_length, flatMap_setInt16_length,
    List.length_cons, List.length_nil]

/-- Everything after the 44-byte header is the encoded sample data. -/
lemma wav_drop44 (s : List Int) (r : Int) : (pcmToWav s r).drop 44 = s.flatMap setInt16 := rfl

/-- Bytes 4–7 hold `36 + 2·n` reduced modulo 2^32. -/
lemma wav_field4 (s : List Int) (r : Int) :
    readU32at (pcmToWav s r) 4 = (36 + 2 * s.length) % 4294967296 := by
  have h : readU32at (pcmToWav s r) 4
      = leVal (bytesOfNatLE 4 ((36 + (s.length : Int) * 2) % 4294967296).toNat) := rfl
  have e : (36 + (s.length : Int) * 2) = ((36 + 2 * s.length : Nat) : Int) := by
    push_cast
    ring
  rw [h, e]
  generalize 36 + 2 * s.length = m
  have hb : (((m : Nat) : Int) % 4294967296).toNat < 256 ^ 4 := by
    have e4 : (256 : Nat) ^ 4 = 4294967296 := by norm_num
    rw [e4]
    omega
  rw [leVal_bytesOfNatLE 4 _ hb]
  omega

/-- Bytes 24–27 hold the sample rate reduced modulo 2^32. -/
lemma wav_field24 (s : List Int) (r : Int) :
    readU32at (pcmToWav s r) 24 = (r % 4294967296).toNat := by
  have h : readU32at (pcmToWav s r) 24
      = leVal (bytesOfNatLE 4 (r % 4294967296).toNat) := rfl
  rw [h]
  refine leVal_bytesOfNatLE 4 _ ?_
  have e : (256 : Nat) ^ 4 = 4294967296 := by norm_num
  rw [e]
  omega

/-- Bytes 28–31 hold the byte rate `sampleRate * 1 * (16/8)` reduced
modulo 2^32. -/
lemma wav_field28 (s : List Int) (r : Int) :
    readU32at (pcmToWav s r) 28 = ((r * 2) % 4294967296).toNat := by
  have h : readU32at (pcmToWav s r) 28
      = leVal (bytesOfNatLE 4 ((r * 1 * (16 / 8)) % 4294967296).toNat) := rfl
  have e : r * 1 * (16 / 8) = r * 2 := by norm_num
  rw [h, e]
  refine leVal_bytesOfNatLE 4 _ ?_
  have e4 : (256 : Nat) ^ 4 = 4294967296 := by norm_num
  rw [e4]
  omega

/-- Bytes 40–43 hold `2·n` reduced modulo 2^32. -/
lemma wav_field40 (s : List Int) (r : Int) :
    readU32at (pcmToWav s r) 40 = (2 * s.length) % 4294967296 := by
  have h : readU32at (pcmToWav s r) 40
      = leVal (bytesOfNatLE 4 (((s.length : Int) * 2) % 4294967296).toNat) := rfl
  have e : ((s.length : Int) * 2) = ((2 * s.length : Nat) : Int) := by
    push_cast
    ring
  rw [h, e]
  generalize 2 * s.length = m
  have hb : (((m : Nat) : Int) % 4294967296).toNat < 256 ^ 4 := by
    have e4 : (256 : Nat) ^ 4 = 4294967296 := by norm_num
    rw [e4]
    omega
  rw [leVal_bytesOfNatLE 4 _ hb]
  omega

/-- Reading back the two bytes `setInt16` stores gives the sample value
modulo 2^16. -/
lemma leVal_setInt16 (v : Int) : leVal (setInt16 v) = (v % 65536).toNat := by
  refine leVal_bytesOfNatLE 2 _ ?_
  have e : (256 : Nat) ^ 2 = 65536 := by norm_num
  rw [e]
  omega

/-- Dropping `2·i` bytes of the sample data region drops the first `i`
samples. -/
lemma flatMap_setInt16_drop (s : List Int) (i : Nat) :
    (s.flatMap setInt16).drop (2 * i) = (s.drop i).flatMap setInt16 := by
  induction i generalizing s with
  | zero => simp
  | succ i ih =>
      cases s with
      | nil => simp
      | cons v t =>
          have e : 2 * (i + 1) = 2 + 2 * i := by ring
          rw [List.flatMap_cons, e]
          have h2 : ((setInt16 v ++ t.flatMap setInt16).drop 2).drop (2 * i)
              = (setInt16 v ++ t.flatMap setInt16).drop (2 + 2 * i) :=
            List.drop_drop (2 * i) 2 _
          rw [← h2]
          have h3 : (setInt16 v ++ t.flatMap setInt16).drop 2 = t.flatMap setInt16 := by
            rw [show (2 : Nat) = (setInt16 v).length from rfl, List.drop_left]
          rw [h3, ih t, List.drop_succ_cons]

/-- The two bytes at offset `44 + 2·i` of the encoder output are exactly
the `setInt16` image of the `i`-th input sample. -/
lemma wav_sample_chunk (s : List Int) (r : Int) (i : Nat) (hi : i < s.length) :
    readChunk (pcmToWav s r) (44 + 2 * i) 2 = setInt16 s[i] := by
  unfold readChunk
  have h1 : ((pcmToWav s r).drop 44).drop (2 * i) = (pcmToWav s r).drop (44 + 2 * i) :=
    List.drop_drop (2 * i) 44 _
  rw [← h1, wav_drop44, flatMap_setInt16_drop, List.drop_eq_getElem_cons hi,
    List.flatMap_cons]
  rw [show (2 : Nat) = (setInt16 s[i]).length from rfl, List.take_left]

/-- Reading the `i`-th sample word back as an unsigned 16-bit value gives
the sample reduced modulo 2^16. -/
lemma readU16_sample (s : List Int) (r : Int) (i : Nat) (hi : i < s.length) :
    readU16at (pcmToWav s r) (44 + 2 * i) = (s[i] % 65536).toNat := by
  unfold readU16at
  rw [wav_sample_chunk s r i hi]
  exact leVal_setInt16 _

/-- Decoding the two bytes `setInt16` stores recovers a sample in the
signed 16-bit range. -/
lemma i16OfBytes_setInt16 (v : Int) (h0 : -32768 ≤ v) (h1 : v ≤ 32767) :
    i16OfBytes ((v % 65536).toNat % 256) ((v % 65536).toNat / 256 % 256) = v := by
  unfold i16OfBytes
  split <;> omega

/-- Decoding the concatenated sample words recovers the sample sequence,
provided every sample is in the signed 16-bit range. -/
lemma decodePairs_flatMap (s : List Int) (h : ∀ v ∈ s, -32768 ≤ v ∧ v ≤ 32767) :
    decodePairs (s.flatMap setInt16) = s := by
  induction s with
  | nil => rfl
  | cons v t ih =>
      have hv := h v (by simp)
      have ht : ∀ w ∈ t, -32768 ≤ w ∧ w ≤ 32767 := fun w hw => h w (by simp [hw])
      rw [List.flatMap_cons]
      have e : setInt16 v ++ t.flatMap setInt16
          = ((v % 65536).toNat % 256) :: ((v % 65536).toNat / 256 % 256)
            :: t.flatMap setInt16 := rfl
      rw [e]
      simp only [decodePairs]
      rw [i16OfBytes_setInt16 v hv.1 hv.2, ih ht]

/-- `allInt16` decides the signed 16-bit range condition. -/
lemma allInt16_iff (s : List Int) :
    allInt16 s = true ↔ ∀ v ∈ s, -32768 ≤ v ∧ v ≤ 32767 := by
  simp [allInt16, List.all_eq_true, decide_eq_true_eq]

/-- If `rate=`+digit matches at no position of the string, the scan finds
nothing. -/
lemma findRate_eq_none (m : List Char)
    (h : ∀ i, i < m.length → rateMatchHere (m.drop i) = false) : findRate m = none := by
  induction m with
  | nil => rfl
  | cons c rest ih =>
      have h0 : rateMatchHere (c :: rest) = false := by
        have := h 0 (by simp)
        simpa using this
      have hrest : ∀ i, i < rest.length → rateMatchHere (rest.drop i) = false := by
        intro i hi
        have := h (i + 1) (by simp; omega)
        simpa [List.drop_succ_cons] using this
      simp only [findRate, h0]
      simp only [Bool.false_eq_true, if_false]
      exact ih hrest

/-- `noRateMatch` decides absence of the pattern at every position. -/
lemma noRateMatch_iff (m : List Char) :
    noRateMatch m = true ↔ ∀ i, i < m.length → rateMatchHere (m.drop i) = false := by
  simp [noRateMatch, List.all_eq_true, decide_eq_true_eq, List.mem_range]

-- ## Claim theorems

/-- Claim C2: for all sample sequences of any length `n` and any sample
rate, the encoder output is exactly `44 + 2·n` bytes long. -/
theorem pcmToWav_outputLength (s : List Int) (r : Int) :
    (pcmToWav s r).length = 44 + 2 * s.length :=
  wav_length_eq s r

/-- Claim C6: the encoder accepts sample rate 0 without validation: the
sample-rate field (bytes 24–27) and the byte-rate field (bytes 28–31)
both hold 0, and the call still produces the full `44 + 2·n`-byte
buffer. -/
theorem pcmToWav_rateZero (s : List Int) :
    readU32at (pcmToWav s 0) 24 = 0 ∧ readU32at (pcmToWav s 0) 28 = 0 ∧
    (pcmToWav s 0).length = 44 + 2 * s.length := by
  refine ⟨?_, ?_, wav_length_eq s 0⟩
  · rw [wav_field24]
    decide
  · rw [wav_field28]
    decide

/-- Claim C9: `setInt16` stores each sample — also one outside the
signed 16-bit range — as its value reduced modulo 2^16, and the
sample-rate field stores the rate reduced modulo 2^32; no error and no
clamping. -/
theorem pcmToWav_modularStore (s : List Int) (r : Int) (i : Nat) (hi : i < s.length) :
    readU16at (pcmToWav s r) (44 + 2 * i) = (s[i] % 65536).toNat ∧
    readU32at (pcmToWav s r) 24 = (r % 4294967296).toNat :=
  ⟨readU16_sample s r i hi, wav_field24 s r⟩

/-- Witness for C9 at sample 40000 (outside the signed 16-bit range) and
sample rate 2^32 + 4. -/
theorem pcmToWav_modularStore_witness :
    0 < ([40000, -40000] : List Int).length ∧
    (readU16at (pcmToWav [40000, -40000] 4294967300) (44 + 2 * 0)
        = ((([40000, -40000] : List Int)[0]) % 65536).toNat ∧
      readU32at (pcmToWav [40000, -40000] 4294967300) 24
        = ((4294967300 : Int) % 4294967296).toNat) :=
  ⟨by decide, pcmToWav_modularStore [40000, -40000] 4294967300 0 (by decide)⟩

/-- Claim C5: the `i`-th input sample occupies bytes `44 + 2·i` and
`44 + 2·i + 1` of the output and reads back, as a signed 16-bit
little-endian integer, to exactly that sample, in input order. -/
theorem pcmToWav_sampleBytes (s : List Int) (r : Int) (i : Nat)
    (hs : allInt16 s = true) (hi : i < s.length) :
    readI16at (pcmToWav s r) (44 + 2 * i) = s[i] := by
  have hv := (allInt16_iff s).mp hs s[i] (List.getElem_mem hi)
  unfold readI16at
  rw [wav_sample_chunk s r i hi]
  exact i16OfBytes_setInt16 s[i] hv.1 hv.2

/-- Witness for C5 on the spec's scenario input at index 2. -/
theorem pcmToWav_sampleBytes_witness :
    (allInt16 [0, 32767, -32768, 1000] = true ∧
      2 < ([0, 32767, -32768, 1000] : List Int).length) ∧
    readI16at (pcmToWav [0, 32767, -32768, 1000] 24000) (44 + 2 * 2)
      = ([0, 32767, -32768, 1000] : List Int)[2] :=
  ⟨⟨by decide, by decide⟩,
    pcmToWav_sampleBytes [0, 32767, -32768, 1000] 24000 2 (by decide) (by decide)⟩

/-- Claim C1 (amended): decoding the encoder output — rate from the
header field at bytes 24–27, samples from byte 44 on — recovers the
input exactly, for every sequence of signed 16-bit samples and every
sample rate representable in the unsigned 32-bit field, i.e. in
`[0, 2^32)`. -/
theorem pcmToWav_roundTrip (s : List Int) (r : Int) (hs : allInt16 s = true)
    (h0 : 0 ≤ r) (h1 : r < 4294967296) :
    wavSamples (pcmToWav s r) = s ∧ (wavRate (pcmToWav s r) : Int) = r := by
  constructor
  · unfold wavSamples
    rw [wav_drop44]
    exact decodePairs_flatMap s ((allInt16_iff s).mp hs)
  · unfold wavRate
    rw [wav_field24]
    omega

/-- Witness for C1 on the spec's scenario input. -/
theorem pcmToWav_roundTrip_witness :
    (allInt16 [0, 32767, -32768, 1000] = true ∧ (0 : Int) ≤ 24000 ∧
      (24000 : Int) < 4294967296) ∧
    (wavSamples (pcmToWav [0, 32767, -32768, 1000] 24000) = [0, 32767, -32768, 1000] ∧
      (wavRate (pcmToWav [0, 32767, -32768, 1000] 24000) : Int) = 24000) :=
  ⟨⟨by decide, by decide, by decide⟩,
    pcmToWav_roundTrip [0, 32767, -32768, 1000] 24000 (by decide) (by decide) (by decide)⟩

/-- Counterexample to C1 as stated: at sample rate 2^32 the round trip
does not return the original sample rate — the header field wraps to 0. -/
theorem pcmToWav_roundTrip_cex :
    ¬ (wavSamples (pcmToWav ([] : List Int) 4294967296) = [] ∧
      (wavRate (pcmToWav ([] : List Int) 4294967296) : Int) = 4294967296) := by
  decide

/-- Claim C3 (amended): as long as the declared sizes fit the unsigned
32-bit fields (`36 + 2·n < 2^32`), the declared data-length field (bytes
40–43) equals
`2·n` and the declared total-size field (bytes 4–7) equals `36 + 2·n`,
which is the output length minus 8; for longer inputs the fields hold
those values reduced modulo 2^32. -/
theorem pcmToWav_sizeFields (s : List Int) (r : Int) (h : 36 + 2 * s.length < 4294967296) :
    readU32at (pcmToWav s r) 40 = 2 * s.length ∧
    readU32at (pcmToWav s r) 4 = 36 + 2 * s.length ∧
    readU32at (pcmToWav s r) 4 = (pcmToWav s r).length - 8 := by
  have h40 := wav_field40 s r
  have h4 := wav_field4 s r
  have hlen := wav_length_eq s r
  refine ⟨?_, ?_, ?_⟩
  · rw [h40]
    clear h40 h4 hlen
    omega
  · rw [h4]
    clear h40 h4 hlen
    omega
  · rw [h4, hlen]
    clear h40 h4 hlen
    omega

/-- Witness for C3 on the spec's scenario input. -/
theorem pcmToWav_sizeFields_witness :
    36 + 2 * ([0, 32767, -32768, 1000] : List Int).length < 4294967296 ∧
    (readU32at (pcmToWav [0, 32767, -32768, 1000] 24000) 40
        = 2 * ([0, 32767, -32768, 1000] : List Int).length ∧
      readU32at (pcmToWav [0, 32767, -32768, 1000] 24000) 4
        = 36 + 2 * ([0, 32767, -32768, 1000] : List Int).length ∧
      readU32at (pcmToWav [0, 32767, -32768, 1000] 24000) 4
        = (pcmToWav [0, 32767, -32768, 1000] 24000).length - 8) :=
  ⟨by decide, pcmToWav_sizeFields [0, 32767, -32768, 1000] 24000 (by decide)⟩

/-- Counterexample to C3 as stated: for 2^31 samples the data-length
field wraps modulo 2^32 (to 0) instead of holding `2·n`. -/
theorem pcmToWav_sizeFields_cex :
    ¬ (readU32at (pcmToWav (List.replicate 2147483648 (0 : Int)) 0) 40
        = 2 * (List.replicate 2147483648 (0 : Int)).length ∧
      readU32at (pcmToWav (List.replicate 2147483648 (0 : Int)) 0) 4
        = 36 + 2 * (List.replicate 2147483648 (0 : Int)).length ∧
      readU32at (pcmToWav (List.replicate 2147483648 (0 : Int)) 0) 4
        = (pcmToWav (List.replicate 2147483648 (0 : Int)) 0).length - 8) := by
  intro h
  obtain ⟨ha, -, -⟩ := h
  rw [wav_field40, List.length_replicate] at ha
  omega

/-- Bytes 0–3 are the ASCII marker RIFF. -/
lemma wav_marker0 (s : List Int) (r : Int) :
    readChunk (pcmToWav s r) 0 4 = asciiBytes "RIFF" := rfl

/-- Bytes 8–11 are the ASCII marker WAVE. -/
lemma wav_marker8 (s : List Int) (r : Int) :
    readChunk (pcmToWav s r) 8 4 = asciiBytes "WAVE" := rfl

/-- Bytes 12–15 are the ASCII marker fmt-space. -/
lemma wav_marker12 (s : List Int) (r : Int) :
    readChunk (pcmToWav s r) 12 4 = asciiBytes "fmt " := rfl

/-- Bytes 36–39 are the ASCII marker data. -/
lemma wav_marker36 (s : List Int) (r : Int) :
    readChunk (pcmToWav s r) 36 4 = asciiBytes "data" := rfl

/-- Bytes 16–19 hold the constant 16. -/
lemma wav_field16 (s : List Int) (r : Int) : readU32at (pcmToWav s r) 16 = 16 := rfl

/-- Bytes 20–21 hold the constant 1 (PCM format tag). -/
lemma wav_field20 (s : List Int) (r : Int) : readU16at (pcmToWav s r) 20 = 1 := rfl

/-- Bytes 22–23 hold the channel count 1. -/
lemma wav_field22 (s : List Int) (r : Int) : readU16at (pcmToWav s r) 22 = 1 := rfl

/-- Bytes 32–33 hold the block align 2. -/
lemma wav_field32 (s : List Int) (r : Int) : readU16at (pcmToWav s r) 32 = 2 := rfl

/-- Bytes 34–35 hold the bits-per-sample constant 16. -/
lemma wav_field34 (s : List Int) (r : Int) : readU16at (pcmToWav s r) 34 = 16 := rfl

/-- Claim C4 (amended): for every input (samples, sampleRate) the
44-byte header carries the markers RIFF, WAVE, fmt-space and data and
the constants 16, 1, channel count 1, block align 2 and bits per sample
16, and the two rate fields store the sample rate and the byte rate
`sampleRate × 2` reduced modulo 2^32 — hence exactly whenever
`0 ≤ sampleRate` and `sampleRate × 2 < 2^32`. -/
theorem pcmToWav_headerLayout (s : List Int) (r : Int) :
    readChunk (pcmToWav s r) 0 4 = asciiBytes "RIFF" ∧
    readChunk (pcmToWav s r) 8 4 = asciiBytes "WAVE" ∧
    readChunk (pcmToWav s r) 12 4 = asciiBytes "fmt " ∧
    readU32at (pcmToWav s r) 16 = 16 ∧
    readU16at (pcmToWav s r) 20 = 1 ∧
    readU16at (pcmToWav s r) 22 = 1 ∧
    readU32at (pcmToWav s r) 24 = (r % 4294967296).toNat ∧
    readU32at (pcmToWav s r) 28 = ((r * 2) % 4294967296).toNat ∧
    readU16at (pcmToWav s r) 32 = 2 ∧
    readU16at (pcmToWav s r) 34 = 16 ∧
    readChunk (pcmToWav s r) 36 4 = asciiBytes "data" ∧
    (0 ≤ r → r * 2 < 4294967296 →
      (readU32at (pcmToWav s r) 24 : Int) = r ∧
      (readU32at (pcmToWav s r) 28 : Int) = r * 2) := by
  refine ⟨wav_marker0 s r, wav_marker8 s r, wav_marker12 s r, wav_field16 s r,
    wav_field20 s r, wav_field22 s r, wav_field24 s r, wav_field28 s r,
    wav_field32 s r, wav_field34 s r, wav_marker36 s r, ?_⟩
  intro h0 h1
  constructor
  · rw [wav_field24]
    omega
  · rw [wav_field28]
    omega

/-- Witness for C4 at sample rate 24000 and the empty sample list:
the exactness hypotheses of the final conjunct hold and the two rate
fields read back 24000 and 48000. -/
theorem pcmToWav_headerLayout_witness :
    ((0 : Int) ≤ 24000 ∧ (24000 : Int) * 2 < 4294967296) ∧
    ((readU32at (pcmToWav [] 24000) 24 : Int) = 24000 ∧
      (readU32at (pcmToWav [] 24000) 28 : Int) = 24000 * 2) := by
  have h := pcmToWav_headerLayout [] 24000
  exact ⟨⟨by decide, by decide⟩,
    h.2.2.2.2.2.2.2.2.2.2.2 (by decide) (by decide)⟩

/-- Counterexample to C4 as stated: at sample rate 2^32 + 1 the
sample-rate field (bytes 24–27) holds 1, not the sample rate, so the
layout conjunction fails. -/
theorem pcmToWav_headerLayout_cex :
    ¬ (readChunk (pcmToWav ([] : List Int) 4294967297) 0 4 = asciiBytes "RIFF" ∧
      readChunk (pcmToWav ([] : List Int) 4294967297) 8 4 = asciiBytes "WAVE" ∧
      readChunk (pcmToWav ([] : List Int) 4294967297) 12 4 = asciiBytes "fmt " ∧
      readU32at (pcmToWav ([] : List Int) 4294967297) 16 = 16 ∧
      readU16at (pcmToWav ([] : List Int) 4294967297) 20 = 1 ∧
      readU16at (pcmToWav ([] : List Int) 4294967297) 22 = 1 ∧
      (readU32at (pcmToWav ([] : List Int) 4294967297) 24 : Int) = 4294967297 ∧
      (readU32at (pcmToWav ([] : List Int) 4294967297) 28 : Int) = 4294967297 * 2 ∧
      readU16at (pcmToWav ([] : List Int) 4294967297) 32 = 2 ∧
      readU16at (pcmToWav ([] : List Int) 4294967297) 34 = 16 ∧
      readChunk (pcmToWav ([] : List Int) 4294967297) 36 4 = asciiBytes "data") := by
  decide

/-- Claim C7: the sample rate is taken from the first `rate=<digits>`
match of the MIME-type string; when the pattern matches nowhere, the
rate defaults to 24000. -/
theorem parseSampleRate_default (m : List Char) (h : noRateMatch m = true) :
    parseSampleRate m = 24000 := by
  have h2 := (noRateMatch_iff m).mp h
  unfold parseSampleRate
  rw [findRate_eq_none m h2]

/-- Witness for C7 on the rate-free MIME type audio/L16. -/
theorem parseSampleRate_default_witness :
    noRateMatch ("audio/L16".toList) = true ∧
    parseSampleRate ("audio/L16".toList) = 24000 :=
  ⟨by decide, parseSampleRate_default ("audio/L16".toList) (by decide)⟩

/-- Claim C10: `base64ToArrayBuffer` yields exactly one byte per decoded
character, and building the 16-bit view of a buffer with an odd byte
count fails, so the encoder never receives a truncated half-sample. -/
theorem base64_int16_guard (s : List Char) (bs : List Nat) (h : bs.length % 2 = 1) :
    (base64ToArrayBuffer s).length = s.length ∧ toInt16Array bs = none := by
  constructor
  · simp [base64ToArrayBuffer]
  · unfold toInt16Array
    rw [if_neg]
    omega

/-- Witness for C10 on a three-byte buffer. -/
theorem base64_int16_guard_witness :
    ([1, 2, 3] : List Nat).length % 2 = 1 ∧
    ((base64ToArrayBuffer ("abc".toList)).length = ("abc".toList).length ∧
      toInt16Array [1, 2, 3] = none) :=
  ⟨by decide, base64_int16_guard ("abc".toList) [1, 2, 3] (by decide)⟩
